import Mathlib

set_option linter.unnecessarySeqFocus false
set_option linter.unreachableTactic false
set_option linter.unusedTactic false

/-!
Verification of the V&V results-generator core (vv-site).

Shallow embedding of the classification-and-aggregation engine:
`errorParser.tsx` (getResultReason, getCompilerStatus, getRuntimeStatus),
the `App.tsx` summary pipeline (sortTestNames, parseJSONResultsHelper,
generateComparisonGraph) and the `DetailsPage.tsx` per-test run fold.

Modelling conventions:
* JSON scalars are `JValue` (null / bool / integer number / string); result
  codes are integers, so JSON numbers are modelled as `Int`.
* A JS object field is `Option _` (`none` = key absent); `some .null` is a
  key present with value `null`.
* Text blobs (stderr/stdout/...) are `Option String`, as the source only
  ever applies string operations to them.
* `Number(s)` is modelled for integer literals (optional sign + digits,
  empty/whitespace string giving 0); fractional, hex and exponent forms do
  not occur as result codes and are mapped to NaN (`none`).
* A parsed `runs` object is its key/value list in insertion order:
  `JSON.parse` yields unique keys and `Object.keys` preserves their order,
  so iterating the pairs is iterating `Object.keys` with indexing.
* `Array.prototype.sort` with a consistent comparator is required (ES2019)
  to be a stable comparator sort, which insertion sort implements.
* Prototype-chain lookups on the `langOrder` object literal (extensions
  such as "constructor") are not modelled; unknown extensions map to 3.
-/

inductive JValue where
  | null
  | bool (b : Bool)
  | num (n : Int)
  | str (s : String)
  deriving DecidableEq, Repr

/-- The runtime extractor's result type: `number | string` in the source. -/
inductive JSResult where
  | num (n : Int)
  | str (s : String)
  deriving DecidableEq, Repr

/-- One phase section of a run record (`compilation` / `runtime` /
`execution` object), with every historical field name. -/
structure RunSection where
  result : Option JValue := none
  return_code : Option JValue := none
  success : Option JValue := none
  errors : Option String := none
  stderr : Option String := none
  stdout : Option String := none
  output : Option String := none
  deriving DecidableEq, Repr

/-- One execution attempt of a test (an element of `runs[testName]`). -/
structure RunRecord where
  compilation : Option RunSection := none
  runtime : Option RunSection := none
  execution : Option RunSection := none
  deriving DecidableEq, Repr

/-- JS `x || y` on strings: keep `x` unless it is empty (falsy). -/
def strOr (x y : String) : String := if x = "" then y else x

/-- JS whitespace trim over the character list. -/
def trimChars (l : List Char) : List Char :=
  ((l.dropWhile Char.isWhitespace).reverse.dropWhile Char.isWhitespace).reverse

/-- JS `s.trim()`. -/
def jsTrim (s : String) : String := String.mk (trimChars s.data)

/-- JS `s.toLowerCase()`. -/
def lowerStr (s : String) : String := String.mk (s.data.map Char.toLower)

/-- JS `msg.split(newline)` over characters. -/
def splitNlChars : List Char → List (List Char)
  | [] => [[]]
  | c :: cs =>
    match splitNlChars cs with
    | [] => [[]]
    | h :: t => if c = '\n' then [] :: h :: t else (c :: h) :: t

/-- Decimal value of a digit list. -/
def digitsVal (l : List Char) : Nat :=
  l.foldl (fun a c => a * 10 + (c.toNat - 48)) 0

/-- Modelled JS `Number(s)` restricted to integer literals: a trimmed empty
string is 0, an optional sign followed by digits is that integer, anything
else is NaN (`none`). -/
def jsNumOfString (s : String) : Option Int :=
  match trimChars s.data with
  | [] => some 0
  | '+' :: ds =>
    if ds ≠ [] ∧ ds.all Char.isDigit then some (Int.ofNat (digitsVal ds)) else none
  | '-' :: ds =>
    if ds ≠ [] ∧ ds.all Char.isDigit then some (-(Int.ofNat (digitsVal ds))) else none
  | ds => if ds.all Char.isDigit then some (Int.ofNat (digitsVal ds)) else none

/-- Is `pat` a contiguous substring of the second list? -/
def sublistIn (pat : List Char) : List Char → Bool
  | [] => pat.isEmpty
  | c :: cs => pat.isPrefixOf (c :: cs) || sublistIn pat cs

/-- The alternatives of the diagnostic-keyword regex in getResultReason. -/
def errorKeywords : List String :=
  ["error", "compilation aborted", "undefined", "invalid", "fatal",
   "segmentation", "core dumped", "not found", "missing"]

/-- The case-insensitive regex test applied to each line. -/
def hasErrorKeyword (line : String) : Bool :=
  errorKeywords.any (fun k => sublistIn k.data (lowerStr line).data)

/-- JS `Array.join(sep)`. -/
def joinSep (sep : String) : List String → String
  | [] => ""
  | [s] => s
  | s :: a :: rest => s ++ sep ++ joinSep sep (a :: rest)

/-- The `'compiler' | 'runtime'` string union used for phases and modes. -/
inductive Phase where
  | compiler
  | runtime
  deriving DecidableEq, Repr

/-- getResultReason's section selection: `run?.compilation` or
`run?.runtime` (the runtime branch does not consult `execution`). -/
def reasonSectionOf (run : RunRecord) : Phase → Option RunSection
  | .compiler => run.compilation
  | .runtime => run.runtime

/-- The combined text blob of getResultReason before line splitting:
`(errors-or-stderr) newline stdout newline output`, trimmed. -/
def sectionMsg (sec : RunSection) : String :=
  let stderr := strOr (jsTrim (sec.errors.getD "")) (jsTrim (sec.stderr.getD ""))
  let stdout := jsTrim (sec.stdout.getD "")
  let output := jsTrim (sec.output.getD "")
  jsTrim (stderr ++ "\n" ++ stdout ++ "\n" ++ output)

/-- The trimmed non-blank lines of the combined text blob. -/
def sectionLines (sec : RunSection) : List String :=
  ((splitNlChars (sectionMsg sec).data).map (fun cs => String.mk (trimChars cs))).filter
    (fun l => l ≠ "")

/-- errorParser.tsx getResultReason. -/
def getResultReason (run : RunRecord) (ty : Phase) : String :=
  match reasonSectionOf run ty with
  | none => "N/A"
  | some sec =>
    if sectionMsg sec = "" then "Unknown"
    else
      let lines := sectionLines sec
      match lines.find? hasErrorKeyword with
      | some l => l
      | none => strOr (joinSep " | " (lines.take 3)) "Unknown"

/-- JS nullish coalescing `a ?? b` on optional JSON fields. -/
def nullishOr (a b : Option JValue) : Option JValue :=
  match a with
  | none => b
  | some .null => b
  | some v => some v

/-- The section `run.compilation || (empty object)`. -/
def compSectionOf (run : RunRecord) : RunSection :=
  run.compilation.getD {}

/-- The section `run.runtime || run.execution || (empty object)`. -/
def rtSectionOf (run : RunRecord) : RunSection :=
  match run.runtime with
  | some s => s
  | none => run.execution.getD {}

structure CompStatus where
  result : Int
  reason : String
  stderr : String
  stdout : String
  deriving DecidableEq, Repr

structure RtStatus where
  result : JSResult
  reason : String
  stderr : String
  output : String
  deriving DecidableEq, Repr

/-- errorParser.tsx getCompilerStatus. -/
def getCompilerStatus (run : RunRecord) : CompStatus :=
  let sec := compSectionOf run
  let resultRaw := nullishOr sec.result sec.return_code
  let fallback : Int :=
    match sec.success with
    | some v => if v = .bool true then 0 else 1
    | none => -1
  let result : Int :=
    match resultRaw with
    | some (.num n) => n
    | some (.str s) => (jsNumOfString s).getD fallback
    | _ => fallback
  let reason :=
    if result = 0 then "Pass"
    else if result = -1 then "No compilation result"
    else getResultReason run .compiler
  { result := result, reason := reason,
    stderr := strOr (sec.errors.getD "") (sec.stderr.getD ""),
    stdout := strOr (sec.output.getD "") (sec.stdout.getD "") }

/-- errorParser.tsx getRuntimeStatus. -/
def getRuntimeStatus (run : RunRecord) : RtStatus :=
  let sec := rtSectionOf run
  let resultRaw := nullishOr sec.result sec.return_code
  let fallback : JSResult :=
    match sec.success with
    | some v => .num (if v = .bool true then 0 else 1)
    | none => .str "Unknown"
  let result : JSResult :=
    match resultRaw with
    | some (.num n) => .num n
    | some (.str s) =>
      match jsNumOfString s with
      | some n => .num n
      | none => fallback
    | _ => fallback
  let reason :=
    if result = .num 0 then "Pass"
    else if result = .str "Unknown" then "No execution result"
    else getResultReason run .runtime
  { result := result, reason := reason,
    stderr := strOr (sec.errors.getD "") (sec.stderr.getD ""),
    output := sec.output.getD "" }

/-- JS `name.split(dot).pop().toLowerCase()`: the lowercased text after the
last dot, or the whole lowercased name when no dot occurs. -/
def extPop (name : String) : String :=
  String.mk (((name.data.reverse.takeWhile (fun c => c ≠ '.')).reverse).map Char.toLower)

inductive Lang where
  | C
  | CPP
  | F90
  deriving DecidableEq, Repr

/-- The fixed extension-to-language mapping of the classifier. -/
def langOf (name : String) : Option Lang :=
  match extPop name with
  | "c" => some .C
  | "cpp" => some .CPP
  | "f90" => some .F90
  | _ => none

/-- Split at the last dot, only when a non-empty dot-free extension follows
it, mirroring sortTestNames's split regex (dot with lookahead non-dots to
the end). -/
def splitLastDot (s : String) : String × Option String :=
  let cs := s.data
  let extRev := cs.reverse.takeWhile (fun c => c ≠ '.')
  if extRev.length = cs.length then (s, none)
  else if extRev = [] then (s, none)
  else (String.mk (cs.take (cs.length - extRev.length - 1)), some (String.mk extRev.reverse))

/-- Lexicographic (code-point) comparison of character lists, modelling the
JS `<` operator on strings. -/
def charListLt : List Char → List Char → Bool
  | _, [] => false
  | [], _ :: _ => true
  | a :: as, b :: bs => if a < b then true else if b < a then false else charListLt as bs

/-- JS `a < b` on strings. -/
def strLt (a b : String) : Bool := charListLt a.data b.data

/-- The rank `langOrder[ext] ?? 3` of a destructured (possibly absent) extension. -/
def langOrderOf : Option String → Int
  | some "c" => 0
  | some "cpp" => 1
  | some "f90" => 2
  | _ => 3

/-- The three-way comparator sortTestNames passes to Array.sort: names are
lowercased, split at the last dot, bases compared, then extension ranks. -/
def jsCompare (a b : String) : Int :=
  let ka := splitLastDot (lowerStr a)
  let kb := splitLastDot (lowerStr b)
  if strLt ka.1 kb.1 then -1
  else if strLt kb.1 ka.1 then 1
  else langOrderOf ka.2 - langOrderOf kb.2

/-- The non-strict order induced by the comparator. -/
def sortLe (a b : String) : Prop := jsCompare a b ≤ 0

instance : DecidableRel sortLe := fun a b => inferInstanceAs (Decidable (jsCompare a b ≤ 0))

/-- App.tsx sortTestNames: Array.prototype.sort with the comparator, i.e. a
stable comparator sort. -/
def sortTestNames (names : List String) : List String :=
  List.insertionSort sortLe names

/-- A JSON value stored under a test name: an array of RunRecords, or some
other JSON value (skipped by the `Array.isArray` guard). -/
inductive RunsVal where
  | arr (runs : List RunRecord)
  | other
  deriving DecidableEq, Repr

/-- The parsed document's `runs` object as its key/value pairs in insertion
order. -/
abbrev RunsDoc := List (String × RunsVal)

structure Counts where
  total : Nat := 0
  pass : Nat := 0
  fail : Nat := 0
  deriving DecidableEq, Repr

/-- The per-language Summary produced by parseJSONResultsHelper. -/
structure Summary where
  c : Counts := {}
  cpp : Counts := {}
  f90 : Counts := {}
  failures : List (String × String) := []
  deriving DecidableEq, Repr

def Summary.get (s : Summary) : Lang → Counts
  | .C => s.c
  | .CPP => s.cpp
  | .F90 => s.f90

def Summary.bumpTotal (s : Summary) : Lang → Summary
  | .C => { s with c := { s.c with total := s.c.total + 1 } }
  | .CPP => { s with cpp := { s.cpp with total := s.cpp.total + 1 } }
  | .F90 => { s with f90 := { s.f90 with total := s.f90.total + 1 } }

def Summary.bumpPass (s : Summary) : Lang → Summary
  | .C => { s with c := { s.c with pass := s.c.pass + 1 } }
  | .CPP => { s with cpp := { s.cpp with pass := s.cpp.pass + 1 } }
  | .F90 => { s with f90 := { s.f90 with pass := s.f90.pass + 1 } }

def Summary.bumpFail (s : Summary) : Lang → Summary
  | .C => { s with c := { s.c with fail := s.c.fail + 1 } }
  | .CPP => { s with cpp := { s.cpp with fail := s.cpp.fail + 1 } }
  | .F90 => { s with f90 := { s.f90 with fail := s.f90.fail + 1 } }

def Summary.pushFailure (s : Summary) (name reason : String) : Summary :=
  { s with failures := s.failures ++ [(name, reason)] }

/-- The compiler-failure test used by the `find` over a test's runs. -/
def isCompFail (run : RunRecord) : Bool := (getCompilerStatus run).result != 0

/-- The runtime-failure test over a resolved result: nonzero number, or a
string label other than a case-insensitive "pass". -/
def isRtFailRes : JSResult → Bool
  | .num n => n != 0
  | .str s => lowerStr s != "pass"

def isRtFail (run : RunRecord) : Bool := isRtFailRes (getRuntimeStatus run).result

/-- One iteration of parseJSONResultsHelper's loop over the sorted names. -/
def processTest (mode : Phase) (doc : RunsDoc) (acc : Summary) (testName : String) : Summary :=
  match List.lookup testName doc with
  | none => acc
  | some .other => acc
  | some (.arr runArray) =>
    if runArray.isEmpty then acc
    else
      match langOf testName with
      | none => acc
      | some lang =>
        let acc := acc.bumpTotal lang
        let firstCompilerFail := runArray.find? isCompFail
        let firstRuntimeFail := runArray.find? isRtFail
        match mode with
        | .compiler =>
          match firstCompilerFail with
          | none => acc.bumpPass lang
          | some run =>
            (acc.bumpFail lang).pushFailure testName
              (strOr (getCompilerStatus run).reason "Unknown")
        | .runtime =>
          match firstCompilerFail with
          | some _ => acc
          | none =>
            match firstRuntimeFail with
            | none => acc.bumpPass lang
            | some run =>
              (acc.bumpFail lang).pushFailure testName
                (strOr (getRuntimeStatus run).reason "Unknown")

/-- App.tsx parseJSONResultsHelper, its pure aggregation part: the parsed
document in, the Summary out. -/
def parseJSONResultsHelper (mode : Phase) (doc : RunsDoc) : Summary :=
  (sortTestNames (doc.map Prod.fst)).foldl (processTest mode doc) {}

/-- The DetailsPage running compiler verdict (`compilerStatusFinal`). -/
structure CompFinal where
  result : Int := 0
  reason : String := "Pass"
  stderr : String := ""
  stdout : String := ""
  deriving DecidableEq, Repr

/-- The DetailsPage running runtime verdict (`runtimeStatusFinal`). -/
structure RtFinal where
  result : JSResult := .num 0
  reason : String := "Pass"
  stderr : String := ""
  output : String := ""
  deriving DecidableEq, Repr

/-- One iteration of the DetailsPage per-test loop over `runArray`: a
failing run overwrites result and reason, while `stderr`/`stdout` use the
JS logical-or assignment (kept once non-empty). -/
def detailsStep (acc : CompFinal × RtFinal) (run : RunRecord) : CompFinal × RtFinal :=
  let cStatus := getCompilerStatus run
  let rStatus := getRuntimeStatus run
  let cf :=
    if cStatus.result != 0 then
      { result := cStatus.result, reason := cStatus.reason,
        stderr := strOr acc.1.stderr cStatus.stderr,
        stdout := strOr acc.1.stdout cStatus.stdout }
    else acc.1
  let rf :=
    if isRtFailRes rStatus.result then
      { result := rStatus.result, reason := rStatus.reason,
        stderr := strOr acc.2.stderr rStatus.stderr,
        output := strOr acc.2.output rStatus.output }
    else acc.2
  (cf, rf)

/-- The DetailsPage fold across all runs of one test. -/
def detailsFold (runArray : List RunRecord) : CompFinal × RtFinal :=
  runArray.foldl detailsStep ({}, {})

/-- Per-language pass counts of one comparison document. -/
structure PassCounts where
  c : Nat := 0
  cpp : Nat := 0
  f90 : Nat := 0
  deriving DecidableEq, Repr

def PassCounts.get (p : PassCounts) : Lang → Nat
  | .C => p.c
  | .CPP => p.cpp
  | .F90 => p.f90

def PassCounts.bump (p : PassCounts) : Lang → PassCounts
  | .C => { p with c := p.c + 1 }
  | .CPP => { p with cpp := p.cpp + 1 }
  | .F90 => { p with f90 := p.f90 + 1 }

/-- The comparison loop's `compilerPass` flag fold. -/
def compilerPassAll (runArray : List RunRecord) : Bool :=
  runArray.foldl (fun b run => if isCompFail run then false else b) true

/-- The comparison loop's `runtimePass` flag fold. -/
def runtimePassAll (runArray : List RunRecord) : Bool :=
  runArray.foldl (fun b run => if isRtFail run then false else b) true

/-- One iteration of generateComparisonGraph's per-test loop. -/
def comparisonStep (graphMode : Phase) (acc : PassCounts) (entry : String × RunsVal) :
    PassCounts :=
  match entry.2 with
  | .other => acc
  | .arr runArray =>
    if runArray.isEmpty then acc
    else
      match langOf entry.1 with
      | none => acc
      | some lang =>
        let compilerPass := compilerPassAll runArray
        let runtimePass := runtimePassAll runArray
        match graphMode with
        | .compiler => if compilerPass then acc.bump lang else acc
        | .runtime => if compilerPass && runtimePass then acc.bump lang else acc

/-- generateComparisonGraph's per-document pass counting. -/
def comparisonCounts (graphMode : Phase) (doc : RunsDoc) : PassCounts :=
  doc.foldl (comparisonStep graphMode) {}

/-- The (version1, version2) bar pair charted for one language. -/
def comparisonPair (graphMode : Phase) (doc1 doc2 : RunsDoc) (lang : Lang) : Nat × Nat :=
  ((comparisonCounts graphMode doc1).get lang, (comparisonCounts graphMode doc2).get lang)

/-! ### Claim-side vocabulary -/

/-- Steps (a)+(b) of the result-code resolution chain: an explicit numeric
field, else a numeric string coerced to a number. -/
def resolveRaw (raw : Option JValue) : Option Int :=
  match raw with
  | some (.num n) => some n
  | some (.str s) => jsNumOfString s
  | _ => none

/-- Under full (runtime) mode, a processed test whose runs contain a
compilation failure: counted in its language's total but in neither pass
nor fail. -/
def runtimeExcluded (doc : RunsDoc) (lang : Lang) (testName : String) : Bool :=
  match List.lookup testName doc with
  | some (.arr runArray) =>
    if runArray.isEmpty then false
    else if langOf testName = some lang then (runArray.find? isCompFail).isSome
    else false
  | _ => false

/-- How many processed tests of a language are excluded from pass/fail under
full mode. -/
def runtimeExcludedCount (doc : RunsDoc) (lang : Lang) : Nat :=
  (sortTestNames (doc.map Prod.fst)).countP (runtimeExcluded doc lang)

/-- First non-empty string of a list (empty when none is). -/
def firstNonempty : List String → String
  | [] => ""
  | s :: rest => if s = "" then firstNonempty rest else s

/-- The runs of a test whose compilation failed. -/
def compFailRuns (runArray : List RunRecord) : List RunRecord :=
  runArray.filter isCompFail

/-- The runs of a test whose runtime check failed. -/
def rtFailRuns (runArray : List RunRecord) : List RunRecord :=
  runArray.filter isRtFail

/-- The ordering the code actually sorts by: lowercased base name ascending,
then language priority c < cpp < f90 (unknown extensions last), names split
at the last dot. -/
def amendedLe (a b : String) : Prop :=
  strLt (splitLastDot (lowerStr a)).1 (splitLastDot (lowerStr b)).1 = true
  ∨ ((splitLastDot (lowerStr a)).1 = (splitLastDot (lowerStr b)).1
      ∧ langOrderOf (splitLastDot (lowerStr a)).2 ≤ langOrderOf (splitLastDot (lowerStr b)).2)

instance : DecidableRel amendedLe := fun a b => by
  unfold amendedLe
  infer_instance

/-- The ordering the claim states: base name ascending lexicographically
(case-sensitive), then language priority, split at the last dot. -/
def claimedLe (a b : String) : Prop :=
  strLt (splitLastDot a).1 (splitLastDot b).1 = true
  ∨ ((splitLastDot a).1 = (splitLastDot b).1
      ∧ langOrderOf (splitLastDot a).2 ≤ langOrderOf (splitLastDot b).2)

instance : DecidableRel claimedLe := fun a b => by
  unfold claimedLe
  infer_instance

/-- The entries of a document whose test name maps to a given language. -/
def langEntries (lang : Lang) (doc : RunsDoc) : RunsDoc :=
  doc.filter (fun e => langOf e.1 = some lang)

/-- Whether one document entry contributes to a language's comparison pass
count under a graph mode. -/
def comparisonCountedEntry (graphMode : Phase) (lang : Lang) (e : String × RunsVal) : Bool :=
  match e.2 with
  | .other => false
  | .arr runArray =>
    if runArray.isEmpty then false
    else if langOf e.1 = some lang then
      match graphMode with
      | .compiler => compilerPassAll runArray
      | .runtime => compilerPassAll runArray && runtimePassAll runArray
    else false

/-- Sample record: a run whose compilation failed with code 1 and no text. -/
def runCompFail : RunRecord := { compilation := some { result := some (.num 1) } }

/-- Sample record: a second compilation failure, with diagnostic text. -/
def runCompFailTwo : RunRecord :=
  { compilation := some { result := some (.num 1), stderr := some "error: two" } }

/-- Sample record: a run whose compilation passed and that has no runtime or
execution section. -/
def runCompPassOnly : RunRecord := { compilation := some { result := some (.num 0) } }

/-! ### Helper lemmas -/

theorem strData_append (s t : String) : (s ++ t).data = s.data ++ t.data := by
  cases s
  cases t
  rfl

theorem str_eq_empty_iff (s : String) : s = "" ↔ s.data = [] :=
  ⟨fun h => by rw [h], fun h => congrArg String.mk h⟩

theorem getCompilerStatus_result_char (run : RunRecord) :
    (getCompilerStatus run).result =
      match resolveRaw (nullishOr (compSectionOf run).result (compSectionOf run).return_code) with
      | some n => n
      | none =>
        match (compSectionOf run).success with
        | some v => if v = .bool true then 0 else 1
        | none => -1 := by
  rcases h : nullishOr (compSectionOf run).result (compSectionOf run).return_code with _ | (_ | b | n | s) <;>
    simp only [getCompilerStatus, resolveRaw, h] <;> try rfl
  all_goals rcases hj : jsNumOfString s with _ | m <;> simp [hj]

theorem getRuntimeStatus_result_char (run : RunRecord) :
    (getRuntimeStatus run).result =
      match resolveRaw (nullishOr (rtSectionOf run).result (rtSectionOf run).return_code) with
      | some n => .num n
      | none =>
        match (rtSectionOf run).success with
        | some v => .num (if v = .bool true then 0 else 1)
        | none => .str "Unknown" := by
  rcases h : nullishOr (rtSectionOf run).result (rtSectionOf run).return_code with _ | (_ | b | n | s) <;>
    simp only [getRuntimeStatus, resolveRaw, h] <;> try rfl
  all_goals rcases hj : jsNumOfString s with _ | m <;> simp [hj]

theorem getCompilerStatus_reason_char (run : RunRecord) :
    (getCompilerStatus run).reason =
      if (getCompilerStatus run).result = 0 then "Pass"
      else if (getCompilerStatus run).result = -1 then "No compilation result"
      else getResultReason run .compiler := rfl

theorem getRuntimeStatus_reason_char (run : RunRecord) :
    (getRuntimeStatus run).reason =
      if (getRuntimeStatus run).result = .num 0 then "Pass"
      else if (getRuntimeStatus run).result = .str "Unknown" then "No execution result"
      else getResultReason run .runtime := rfl

theorem getRuntimeStatus_noSection (run : RunRecord) (h1 : run.runtime = none)
    (h2 : run.execution = none) :
    getRuntimeStatus run =
      { result := .str "Unknown", reason := "No execution result", stderr := "", output := "" } := by
  unfold getRuntimeStatus rtSectionOf
  rw [h1, h2]
  rfl

theorem get_bumpTotal_total (s : Summary) (l l' : Lang) :
    ((s.bumpTotal l).get l').total = (s.get l').total + (if l = l' then 1 else 0) := by
  cases l <;> cases l' <;> simp [Summary.bumpTotal, Summary.get]

theorem get_bumpTotal_pass (s : Summary) (l l' : Lang) :
    ((s.bumpTotal l).get l').pass = (s.get l').pass := by
  cases l <;> cases l' <;> simp [Summary.bumpTotal, Summary.get]

theorem get_bumpTotal_fail (s : Summary) (l l' : Lang) :
    ((s.bumpTotal l).get l').fail = (s.get l').fail := by
  cases l <;> cases l' <;> simp [Summary.bumpTotal, Summary.get]

theorem bumpTotal_failures (s : Summary) (l : Lang) :
    (s.bumpTotal l).failures = s.failures := by
  cases l <;> simp [Summary.bumpTotal]

theorem get_bumpPass_total (s : Summary) (l l' : Lang) :
    ((s.bumpPass l).get l').total = (s.get l').total := by
  cases l <;> cases l' <;> simp [Summary.bumpPass, Summary.get]

theorem get_bumpPass_pass (s : Summary) (l l' : Lang) :
    ((s.bumpPass l).get l').pass = (s.get l').pass + (if l = l' then 1 else 0) := by
  cases l <;> cases l' <;> simp [Summary.bumpPass, Summary.get]

theorem get_bumpPass_fail (s : Summary) (l l' : Lang) :
    ((s.bumpPass l).get l').fail = (s.get l').fail := by
  cases l <;> cases l' <;> simp [Summary.bumpPass, Summary.get]

theorem bumpPass_failures (s : Summary) (l : Lang) :
    (s.bumpPass l).failures = s.failures := by
  cases l <;> simp [Summary.bumpPass]

theorem get_bumpFail_total (s : Summary) (l l' : Lang) :
    ((s.bumpFail l).get l').total = (s.get l').total := by
  cases l <;> cases l' <;> simp [Summary.bumpFail, Summary.get]

theorem get_bumpFail_pass (s : Summary) (l l' : Lang) :
    ((s.bumpFail l).get l').pass = (s.get l').pass := by
  cases l <;> cases l' <;> simp [Summary.bumpFail, Summary.get]

theorem get_bumpFail_fail (s : Summary) (l l' : Lang) :
    ((s.bumpFail l).get l').fail = (s.get l').fail + (if l = l' then 1 else 0) := by
  cases l <;> cases l' <;> simp [Summary.bumpFail, Summary.get]

theorem bumpFail_failures (s : Summary) (l : Lang) :
    (s.bumpFail l).failures = s.failures := by
  cases l <;> simp [Summary.bumpFail]

theorem get_pushFailure (s : Summary) (n r : String) (l : Lang) :
    ((s.pushFailure n r).get l) = s.get l := by
  cases l <;> simp [Summary.pushFailure, Summary.get]

theorem pushFailure_failures (s : Summary) (n r : String) :
    (s.pushFailure n r).failures = s.failures ++ [(n, r)] := rfl

/-! ### Claim theorems -/

/-- C3: for every RunRecord and phase, the status extractor resolves the
result code in this exact order: explicit numeric field (resolved through
`result ?? return_code`), else numeric string coerced to a number, else a
success flag mapped to 0 (true) / 1 (false), else the sentinel -1 with
reason "No compilation result" for compilation and "Unknown" with reason
"No execution result" for runtime. -/
theorem c3_resolution_order (run : RunRecord) :
    (∀ n, resolveRaw (nullishOr (compSectionOf run).result (compSectionOf run).return_code)
        = some n → (getCompilerStatus run).result = n)
  ∧ (∀ v, resolveRaw (nullishOr (compSectionOf run).result (compSectionOf run).return_code)
        = none → (compSectionOf run).success = some v →
        (getCompilerStatus run).result = (if v = .bool true then 0 else 1))
  ∧ (resolveRaw (nullishOr (compSectionOf run).result (compSectionOf run).return_code) = none →
        (compSectionOf run).success = none →
        (getCompilerStatus run).result = -1
        ∧ (getCompilerStatus run).reason = "No compilation result")
  ∧ (∀ n, resolveRaw (nullishOr (rtSectionOf run).result (rtSectionOf run).return_code)
        = some n → (getRuntimeStatus run).result = .num n)
  ∧ (∀ v, resolveRaw (nullishOr (rtSectionOf run).result (rtSectionOf run).return_code)
        = none → (rtSectionOf run).success = some v →
        (getRuntimeStatus run).result = .num (if v = .bool true then 0 else 1))
  ∧ (resolveRaw (nullishOr (rtSectionOf run).result (rtSectionOf run).return_code) = none →
        (rtSectionOf run).success = none →
        (getRuntimeStatus run).result = .str "Unknown"
        ∧ (getRuntimeStatus run).reason = "No execution result") := by
  refine ⟨?_, ?_, ?_, ?_, ?_, ?_⟩
  · intro n h
    rw [getCompilerStatus_result_char, h]
  · intro v h hs
    rw [getCompilerStatus_result_char, h, hs]
  · intro h hs
    have hr : (getCompilerStatus run).result = -1 := by
      rw [getCompilerStatus_result_char, h, hs]
    refine ⟨hr, ?_⟩
    rw [getCompilerStatus_reason_char, hr]
    norm_num
  · intro n h
    rw [getRuntimeStatus_result_char, h]
  · intro v h hs
    rw [getRuntimeStatus_result_char, h, hs]
  · intro h hs
    have hr : (getRuntimeStatus run).result = .str "Unknown" := by
      rw [getRuntimeStatus_result_char, h, hs]
    refine ⟨hr, ?_⟩
    rw [getRuntimeStatus_reason_char, hr]
    simp

theorem c3_resolution_order_witness :
    (getCompilerStatus ({} : RunRecord)).result = -1
  ∧ (getCompilerStatus ({} : RunRecord)).reason = "No compilation result"
  ∧ (getRuntimeStatus ({} : RunRecord)).result = .str "Unknown"
  ∧ (getRuntimeStatus ({} : RunRecord)).reason = "No execution result" := by
  have h1 := (c3_resolution_order {}).2.2.1 rfl rfl
  have h2 := (c3_resolution_order {}).2.2.2.2.2 rfl rfl
  exact ⟨h1.1, h1.2, h2.1, h2.2⟩

/-- C7: for every RunRecord whose phase section carries an explicit numeric
result code 0 in its `result` field, the extracted reason is exactly "Pass",
regardless of the section's stderr/stdout text. -/
theorem c7_pass_reason (run : RunRecord) :
    ((compSectionOf run).result = some (.num 0) → (getCompilerStatus run).reason = "Pass")
  ∧ ((rtSectionOf run).result = some (.num 0) → (getRuntimeStatus run).reason = "Pass") := by
  constructor
  · intro h
    have hraw : nullishOr (compSectionOf run).result (compSectionOf run).return_code
        = some (.num 0) := by rw [h]; rfl
    have hr : (getCompilerStatus run).result = 0 := by
      rw [getCompilerStatus_result_char, hraw]
      rfl
    rw [getCompilerStatus_reason_char, hr]
    rfl
  · intro h
    have hraw : nullishOr (rtSectionOf run).result (rtSectionOf run).return_code
        = some (.num 0) := by rw [h]; rfl
    have hr : (getRuntimeStatus run).result = .num 0 := by
      rw [getRuntimeStatus_result_char, hraw]
      rfl
    rw [getRuntimeStatus_reason_char, hr]
    rfl

theorem c7_pass_reason_witness :
    (getCompilerStatus
      { compilation := some { result := some (.num 0),
                              stderr := some "error: noisy diagnostic text\nsecond line" } }).reason
      = "Pass"
  ∧ (getRuntimeStatus
      { runtime := some { result := some (.num 0),
                          errors := some "segmentation fault (incidental)" } }).reason
      = "Pass" :=
  ⟨(c7_pass_reason _).1 rfl, (c7_pass_reason _).2 rfl⟩

/-- C10: the runtime extractor's result is always a number or the exact
string "Unknown"; a non-numeric string result code in the input is never
returned as-is, being replaced by the success-flag mapping when a success
key is present and by the "Unknown" sentinel otherwise. -/
theorem c10_runtime_result_shape (run : RunRecord) :
    ((∃ n, (getRuntimeStatus run).result = .num n)
      ∨ (getRuntimeStatus run).result = .str "Unknown")
  ∧ (∀ s, nullishOr (rtSectionOf run).result (rtSectionOf run).return_code = some (.str s) →
      jsNumOfString s = none →
      (getRuntimeStatus run).result =
        (match (rtSectionOf run).success with
         | some v => .num (if v = .bool true then 0 else 1)
         | none => .str "Unknown")) := by
  constructor
  · rw [getRuntimeStatus_result_char]
    rcases resolveRaw (nullishOr (rtSectionOf run).result (rtSectionOf run).return_code) with _ | n
    · rcases hs : (rtSectionOf run).success with _ | v
      · exact Or.inr rfl
      · exact Or.inl ⟨_, rfl⟩
    · exact Or.inl ⟨n, rfl⟩
  · intro s h hnum
    rw [getRuntimeStatus_result_char, h]
    simp [resolveRaw, hnum]

theorem c10_runtime_result_shape_witness :
    (getRuntimeStatus { runtime := some { result := some (.str "Runtime Failure") } }).result
      = .str "Unknown" :=
  (c10_runtime_result_shape _).2 "Runtime Failure" rfl (by decide)

theorem sectionLines_of_msg_empty (sec : RunSection) (h : sectionMsg sec = "") :
    sectionLines sec = [] := by
  unfold sectionLines
  rw [h]
  rfl

theorem joinSep_cons_ne_empty (t : List String) (h : String) (hne : h ≠ "") :
    joinSep " | " (h :: t) ≠ "" := by
  cases t with
  | nil => simpa [joinSep] using hne
  | cons a t' =>
    intro hcontra
    rw [joinSep, str_eq_empty_iff, strData_append, strData_append,
      List.append_eq_nil, List.append_eq_nil] at hcontra
    exact absurd hcontra.1.2 (by decide)


/-- C5 counterexample: the claim says the absence of any phase section
yields the literal "Unknown", but getResultReason returns "N/A" for a
record with no runtime section. -/
theorem c5_reason_heuristic_counterexample :
    getResultReason ({} : RunRecord) .runtime = "N/A" ∧ "N/A" ≠ "Unknown" :=
  ⟨rfl, by decide⟩

theorem getResultReason_some (run : RunRecord) (ty : Phase) (sec : RunSection)
    (hs : reasonSectionOf run ty = some sec) :
    getResultReason run ty =
      (if sectionMsg sec = "" then "Unknown"
       else
         match List.find? hasErrorKeyword (sectionLines sec) with
         | some l => l
         | none => strOr (joinSep " | " (List.take 3 (sectionLines sec))) "Unknown") := by
  unfold getResultReason
  rw [hs]

/-- C5 (amended): over the combined text blob, the heuristic returns the
first trimmed non-blank line containing a diagnostic keyword verbatim if
one exists, else the first up to 3 non-blank lines joined with " | ", else
(no non-blank lines, section present) the literal "Unknown"; an entirely
absent phase section yields "N/A" instead of "Unknown". -/
theorem c5_reason_heuristic_amended (run : RunRecord) (ty : Phase) :
    (reasonSectionOf run ty = none → getResultReason run ty = "N/A")
  ∧ (∀ sec, reasonSectionOf run ty = some sec → sectionLines sec = [] →
      getResultReason run ty = "Unknown")
  ∧ (∀ sec l, reasonSectionOf run ty = some sec →
      (sectionLines sec).find? hasErrorKeyword = some l →
      getResultReason run ty = l)
  ∧ (∀ sec, reasonSectionOf run ty = some sec →
      (sectionLines sec).find? hasErrorKeyword = none → sectionLines sec ≠ [] →
      getResultReason run ty = joinSep " | " ((sectionLines sec).take 3)) := by
  refine ⟨?_, ?_, ?_, ?_⟩
  · intro h
    unfold getResultReason
    rw [h]
  · intro sec hs hl
    rw [getResultReason_some run ty sec hs]
    by_cases hm : sectionMsg sec = ""
    · rw [if_pos hm]
    · rw [if_neg hm, hl]
      rfl
  · intro sec l hs hf
    rw [getResultReason_some run ty sec hs]
    have hm : ¬ sectionMsg sec = "" := by
      intro hm
      rw [sectionLines_of_msg_empty sec hm] at hf
      simp at hf
    rw [if_neg hm, hf]
  · intro sec hs hf hne
    rw [getResultReason_some run ty sec hs]
    have hm : ¬ sectionMsg sec = "" := by
      intro hm
      exact hne (sectionLines_of_msg_empty sec hm)
    rw [if_neg hm, hf]
    obtain ⟨h, t, hht⟩ : ∃ h t, sectionLines sec = h :: t := by
      cases hsl : sectionLines sec with
      | nil => exact absurd hsl hne
      | cons h t => exact ⟨h, t, rfl⟩
    have hmem : h ∈ sectionLines sec := by
      rw [hht]
      exact List.mem_cons_self h t
    have hhne : h ≠ "" := by
      have hmf := List.of_mem_filter (p := fun l => l ≠ "") (by unfold sectionLines at hmem; exact hmem)
      simpa using hmf
    rw [hht, List.take_succ_cons]
    exact if_neg (joinSep_cons_ne_empty _ h hhne)

set_option maxHeartbeats 1600000 in
theorem c5_reason_heuristic_witness :
    getResultReason ({ runtime := some {} } : RunRecord) .runtime = "Unknown"
  ∧ getResultReason
      ({ compilation := some { stderr := some "an error" } } : RunRecord)
      .compiler = "an error"
  ∧ getResultReason
      ({ compilation := some { stderr := some "a\nb\nc\nd" } } : RunRecord)
      .compiler = "a | b | c" := by
  refine ⟨(c5_reason_heuristic_amended _ .runtime).2.1 {} rfl (by decide),
    (c5_reason_heuristic_amended _ .compiler).2.2.1 _ _ rfl (by decide), ?_⟩
  have h := (c5_reason_heuristic_amended
    ({ compilation := some { stderr := some "a\nb\nc\nd" } } : RunRecord)
    .compiler).2.2.2 _ rfl (by decide) (by decide)
  exact h.trans (by decide)

/-- C2 counterexample: a test "x.f90" with a passing compilation and no
runtime/execution section gets the "Unknown"/"No execution result" runtime
sentinel, but is counted as FAILING under full (runtime) mode — it is not
excluded from the pass/fail totals as the claim states. -/
theorem c2_unknown_runtime_counterexample :
    (getRuntimeStatus runCompPassOnly).result = .str "Unknown"
  ∧ (getRuntimeStatus runCompPassOnly).reason = "No execution result"
  ∧ (parseJSONResultsHelper .runtime [("x.f90", .arr [runCompPassOnly])]).f90
      = { total := 1, pass := 0, fail := 1 }
  ∧ (parseJSONResultsHelper .runtime [("x.f90", .arr [runCompPassOnly])]).failures
      = [("x.f90", "No execution result")] := by
  refine ⟨rfl, rfl, by decide, by decide⟩

/-- C2 (amended): a test whose compilation passed in all runs and that has
no recognized runtime/execution section resolves to the "Unknown"/"No
execution result" sentinel, counts as passing under compilerOnly mode, and
counts as FAILING (with a failure entry carrying the sentinel reason) under
full (runtime) mode. -/
theorem c2_unknown_runtime_amended (doc : RunsDoc) (acc : Summary) (testName : String)
    (runArray : List RunRecord) (lang : Lang)
    (hlook : List.lookup testName doc = some (.arr runArray))
    (hne : runArray ≠ [])
    (hlang : langOf testName = some lang)
    (hcomp : ∀ run ∈ runArray, (getCompilerStatus run).result = 0)
    (hnort : ∀ run ∈ runArray, run.runtime = none ∧ run.execution = none) :
    (∀ run ∈ runArray,
      (getRuntimeStatus run).result = .str "Unknown"
      ∧ (getRuntimeStatus run).reason = "No execution result")
  ∧ processTest .runtime doc acc testName
      = ((acc.bumpTotal lang).bumpFail lang).pushFailure testName "No execution result"
  ∧ processTest .compiler doc acc testName = (acc.bumpTotal lang).bumpPass lang := by
  obtain ⟨r0, rest, rfl⟩ : ∃ a l, runArray = a :: l := by
    cases runArray with
    | nil => exact absurd rfl hne
    | cons a l => exact ⟨a, l, rfl⟩
  have hrt : ∀ run ∈ r0 :: rest,
      getRuntimeStatus run =
        { result := .str "Unknown", reason := "No execution result",
          stderr := "", output := "" } := by
    intro run hm
    exact getRuntimeStatus_noSection run (hnort run hm).1 (hnort run hm).2
  have hfindc : (r0 :: rest).find? isCompFail = none := by
    rw [List.find?_eq_none]
    intro x hx
    simp [isCompFail, hcomp x hx]
  have hr0 : isRtFail r0 = true := by
    rw [isRtFail, hrt r0 (List.mem_cons_self r0 rest)]
    decide
  have hfindr : (r0 :: rest).find? isRtFail = some r0 := List.find?_cons_of_pos rest hr0
  refine ⟨fun run hm => by rw [hrt run hm]; exact ⟨rfl, rfl⟩, ?_, ?_⟩
  · simp only [processTest, hlook, hlang, hfindc, hfindr, List.isEmpty_cons,
      Bool.false_eq_true, if_false]
    rw [hrt r0 (List.mem_cons_self r0 rest)]
    rfl
  · simp only [processTest, hlook, hlang, hfindc, List.isEmpty_cons,
      Bool.false_eq_true, if_false]

theorem c2_unknown_runtime_witness :
    (getRuntimeStatus runCompPassOnly).result = .str "Unknown"
  ∧ processTest .runtime [("x.f90", .arr [runCompPassOnly])] {} "x.f90"
      = ((Summary.bumpTotal {} .F90).bumpFail .F90).pushFailure "x.f90" "No execution result"
  ∧ processTest .compiler [("x.f90", .arr [runCompPassOnly])] {} "x.f90"
      = (Summary.bumpTotal {} .F90).bumpPass .F90 := by
  have h := c2_unknown_runtime_amended [("x.f90", .arr [runCompPassOnly])] {} "x.f90"
    [runCompPassOnly] .F90 rfl (by decide) rfl
    (by intro run hm; rw [List.mem_singleton] at hm; rw [hm]; rfl)
    (by intro run hm; rw [List.mem_singleton] at hm; rw [hm]; exact ⟨rfl, rfl⟩)
  exact ⟨(h.1 runCompPassOnly (List.mem_singleton.mpr rfl)).1, h.2.1, h.2.2⟩

/-- C6: under full (runtime) mode, a processed test whose runs contain a
compilation failure contributes to no language's pass or fail count, and no
failure entry is added for it. -/
theorem c6_full_mode_exclusion (doc : RunsDoc) (acc : Summary) (testName : String)
    (runArray : List RunRecord) (lang : Lang) (failRun : RunRecord)
    (hlook : List.lookup testName doc = some (.arr runArray))
    (hlang : langOf testName = some lang)
    (hfail : runArray.find? isCompFail = some failRun) :
    (∀ l, ((processTest .runtime doc acc testName).get l).pass = (acc.get l).pass
        ∧ ((processTest .runtime doc acc testName).get l).fail = (acc.get l).fail)
  ∧ (processTest .runtime doc acc testName).failures = acc.failures := by
  have hne : runArray.isEmpty = false := by
    cases runArray with
    | nil => simp at hfail
    | cons a l => rfl
  have hstep : processTest .runtime doc acc testName = acc.bumpTotal lang := by
    simp only [processTest, hlook, hne, hlang, hfail, Bool.false_eq_true, if_false]
  rw [hstep]
  exact ⟨fun l => ⟨get_bumpTotal_pass acc lang l, get_bumpTotal_fail acc lang l⟩,
    bumpTotal_failures acc lang⟩

theorem c6_full_mode_exclusion_witness :
    (∀ l, ((processTest .runtime [("a.c", .arr [runCompFail])] {} "a.c").get l).pass
          = ((({} : Summary).get l)).pass
        ∧ ((processTest .runtime [("a.c", .arr [runCompFail])] {} "a.c").get l).fail
          = (({} : Summary).get l).fail)
  ∧ (processTest .runtime [("a.c", .arr [runCompFail])] {} "a.c").failures
      = ({} : Summary).failures :=
  c6_full_mode_exclusion [("a.c", .arr [runCompFail])] {} "a.c" [runCompFail] .C runCompFail
    rfl rfl (by decide)

theorem processTest_compiler_shape (doc : RunsDoc) (acc : Summary) (n : String) :
    processTest .compiler doc acc n = acc
  ∨ (∃ lang, processTest .compiler doc acc n = (acc.bumpTotal lang).bumpPass lang)
  ∨ (∃ lang r, processTest .compiler doc acc n
      = ((acc.bumpTotal lang).bumpFail lang).pushFailure n r) := by
  cases hlook : List.lookup n doc with
  | none => exact Or.inl (by simp [processTest, hlook])
  | some v =>
    cases v with
    | other => exact Or.inl (by simp [processTest, hlook])
    | arr runs =>
      cases runs with
      | nil => exact Or.inl (by simp [processTest, hlook])
      | cons r0 rest =>
        cases hlang : langOf n with
        | none => exact Or.inl (by simp [processTest, hlook, hlang])
        | some lang =>
          cases hf : (r0 :: rest).find? isCompFail with
          | none => exact Or.inr (Or.inl ⟨lang, by simp [processTest, hlook, hlang, hf]⟩)
          | some fr =>
            exact Or.inr (Or.inr ⟨lang, strOr (getCompilerStatus fr).reason "Unknown",
              by simp [processTest, hlook, hlang, hf]⟩)

theorem processTest_runtime_shape (doc : RunsDoc) (acc : Summary) (n : String) :
    (processTest .runtime doc acc n = acc ∧ ∀ l, runtimeExcluded doc l n = false)
  ∨ (∃ lang, processTest .runtime doc acc n = acc.bumpTotal lang
      ∧ ∀ l, runtimeExcluded doc l n = decide (lang = l))
  ∨ (∃ lang, processTest .runtime doc acc n = (acc.bumpTotal lang).bumpPass lang
      ∧ ∀ l, runtimeExcluded doc l n = false)
  ∨ (∃ lang r, processTest .runtime doc acc n
      = ((acc.bumpTotal lang).bumpFail lang).pushFailure n r
      ∧ ∀ l, runtimeExcluded doc l n = false) := by
  cases hlook : List.lookup n doc with
  | none => exact Or.inl ⟨by simp [processTest, hlook], fun l => by simp [runtimeExcluded, hlook]⟩
  | some v =>
    cases v with
    | other =>
      exact Or.inl ⟨by simp [processTest, hlook], fun l => by simp [runtimeExcluded, hlook]⟩
    | arr runs =>
      cases runs with
      | nil =>
        exact Or.inl ⟨by simp [processTest, hlook], fun l => by simp [runtimeExcluded, hlook]⟩
      | cons r0 rest =>
        cases hlang : langOf n with
        | none =>
          refine Or.inl ⟨by simp [processTest, hlook, hlang], fun l => ?_⟩
          simp [runtimeExcluded, hlook, hlang]
        | some lang =>
          cases hf : (r0 :: rest).find? isCompFail with
          | some fr =>
            refine Or.inr (Or.inl ⟨lang, by simp [processTest, hlook, hlang, hf], fun l => ?_⟩)
            by_cases h : lang = l <;> simp [runtimeExcluded, hlook, hlang, hf, h]
          | none =>
            cases hr : (r0 :: rest).find? isRtFail with
            | none =>
              refine Or.inr (Or.inr (Or.inl ⟨lang,
                by simp [processTest, hlook, hlang, hf, hr], fun l => ?_⟩))
              simp [runtimeExcluded, hlook, hlang, hf]
            | some rr =>
              refine Or.inr (Or.inr (Or.inr ⟨lang, strOr (getRuntimeStatus rr).reason "Unknown",
                by simp [processTest, hlook, hlang, hf, hr], fun l => ?_⟩))
              simp [runtimeExcluded, hlook, hlang, hf]

theorem foldl_compiler_balance (doc : RunsDoc) (lang : Lang) (names : List String) :
    ∀ acc : Summary,
      ((names.foldl (processTest .compiler doc) acc).get lang).total
        + (acc.get lang).pass + (acc.get lang).fail
      = ((names.foldl (processTest .compiler doc) acc).get lang).pass
        + ((names.foldl (processTest .compiler doc) acc).get lang).fail
        + (acc.get lang).total := by
  induction names with
  | nil => intro acc; simp; omega
  | cons n ns ih =>
    intro acc
    rw [List.foldl_cons]
    rcases processTest_compiler_shape doc acc n with h | ⟨l', h⟩ | ⟨l', r, h⟩
    · rw [h]
      exact ih acc
    · rw [h]
      have H := ih ((acc.bumpTotal l').bumpPass l')
      simp only [get_bumpPass_total, get_bumpPass_pass, get_bumpPass_fail,
        get_bumpTotal_total, get_bumpTotal_pass, get_bumpTotal_fail] at H
      by_cases hl : l' = lang
      · subst hl
        simp at H
        omega
      · simp only [if_neg hl] at H
        omega
    · rw [h]
      have H := ih (((acc.bumpTotal l').bumpFail l').pushFailure n r)
      simp only [get_pushFailure, get_bumpFail_total, get_bumpFail_pass, get_bumpFail_fail,
        get_bumpTotal_total, get_bumpTotal_pass, get_bumpTotal_fail] at H
      by_cases hl : l' = lang
      · subst hl
        simp at H
        omega
      · simp only [if_neg hl] at H
        omega

theorem foldl_runtime_balance (doc : RunsDoc) (lang : Lang) (names : List String) :
    ∀ acc : Summary,
      ((names.foldl (processTest .runtime doc) acc).get lang).total
        + (acc.get lang).pass + (acc.get lang).fail
      = ((names.foldl (processTest .runtime doc) acc).get lang).pass
        + ((names.foldl (processTest .runtime doc) acc).get lang).fail
        + (acc.get lang).total + names.countP (runtimeExcluded doc lang) := by
  induction names with
  | nil => intro acc; simp; omega
  | cons n ns ih =>
    intro acc
    rw [List.foldl_cons, List.countP_cons]
    rcases processTest_runtime_shape doc acc n with ⟨h, he⟩ | ⟨l', h, he⟩ | ⟨l', h, he⟩
      | ⟨l', r, h, he⟩
    · rw [h, he lang]
      have H := ih acc
      simp only [show (if (false = true) then 1 else 0) = 0 from rfl]
      omega
    · rw [h, he lang]
      have H := ih (acc.bumpTotal l')
      simp only [get_bumpTotal_total, get_bumpTotal_pass, get_bumpTotal_fail] at H
      simp only [decide_eq_true_eq]
      by_cases hl : l' = lang
      · subst hl
        simp at H ⊢
        omega
      · simp only [if_neg hl] at H
        rw [if_neg hl]
        omega
    · rw [h, he lang]
      have H := ih ((acc.bumpTotal l').bumpPass l')
      simp only [get_bumpPass_total, get_bumpPass_pass, get_bumpPass_fail,
        get_bumpTotal_total, get_bumpTotal_pass, get_bumpTotal_fail] at H
      simp only [show (if (false = true) then 1 else 0) = 0 from rfl]
      by_cases hl : l' = lang
      · subst hl
        simp at H
        omega
      · simp only [if_neg hl] at H
        omega
    · rw [h, he lang]
      have H := ih (((acc.bumpTotal l').bumpFail l').pushFailure n r)
      simp only [get_pushFailure, get_bumpFail_total, get_bumpFail_pass, get_bumpFail_fail,
        get_bumpTotal_total, get_bumpTotal_pass, get_bumpTotal_fail] at H
      simp only [show (if (false = true) then 1 else 0) = 0 from rfl]
      by_cases hl : l' = lang
      · subst hl
        simp at H
        omega
      · simp only [if_neg hl] at H
        omega

/-- C1 counterexample: in full (runtime) mode a compiler-failed test is
counted in its language's total but in neither pass nor fail, so the sum
invariant total = pass + fail fails on this document. -/
theorem c1_sum_invariant_counterexample :
    ¬ (((parseJSONResultsHelper .runtime [("a.c", .arr [runCompFail])]).get .C).total
        = ((parseJSONResultsHelper .runtime [("a.c", .arr [runCompFail])]).get .C).pass
          + ((parseJSONResultsHelper .runtime [("a.c", .arr [runCompFail])]).get .C).fail) := by
  decide

/-- C1 (amended): total = pass + fail holds for every language under
compilerOnly mode; under full (runtime) mode, total = pass + fail + the
number of processed tests of that language whose runs contain a
compilation failure (those are counted in total but excluded from both
pass and fail). -/
theorem c1_sum_invariant_amended (doc : RunsDoc) (lang : Lang) :
    ((parseJSONResultsHelper .compiler doc).get lang).total
      = ((parseJSONResultsHelper .compiler doc).get lang).pass
        + ((parseJSONResultsHelper .compiler doc).get lang).fail
  ∧ ((parseJSONResultsHelper .runtime doc).get lang).total
      = ((parseJSONResultsHelper .runtime doc).get lang).pass
        + ((parseJSONResultsHelper .runtime doc).get lang).fail
        + runtimeExcludedCount doc lang := by
  have hz : (({} : Summary).get lang) = {} := by cases lang <;> rfl
  constructor
  · have H := foldl_compiler_balance doc lang (sortTestNames (doc.map Prod.fst)) {}
    rw [hz] at H
    unfold parseJSONResultsHelper
    simp only [show ({} : Counts).total = 0 from rfl, show ({} : Counts).pass = 0 from rfl,
      show ({} : Counts).fail = 0 from rfl] at H
    omega
  · have H := foldl_runtime_balance doc lang (sortTestNames (doc.map Prod.fst)) {}
    rw [hz] at H
    unfold parseJSONResultsHelper runtimeExcludedCount
    simp only [show ({} : Counts).total = 0 from rfl, show ({} : Counts).pass = 0 from rfl,
      show ({} : Counts).fail = 0 from rfl] at H
    omega

theorem firstNonempty_append_singleton (xs : List String) (y : String) :
    firstNonempty (xs ++ [y]) = if firstNonempty xs = "" then y else firstNonempty xs := by
  induction xs with
  | nil => by_cases hy : y = "" <;> simp [firstNonempty, hy]
  | cons s rest ih =>
    simp only [List.cons_append, firstNonempty]
    by_cases hs : s = "" <;> simp [hs, ih]

theorem detailsFold_fst_char (runArray : List RunRecord) :
    (detailsFold runArray).1.result
        = (match (compFailRuns runArray).getLast? with
           | none => 0
           | some r => (getCompilerStatus r).result)
  ∧ (detailsFold runArray).1.reason
        = (match (compFailRuns runArray).getLast? with
           | none => "Pass"
           | some r => (getCompilerStatus r).reason)
  ∧ (detailsFold runArray).1.stderr
      = firstNonempty ((compFailRuns runArray).map (fun r => (getCompilerStatus r).stderr))
  ∧ (detailsFold runArray).1.stdout
      = firstNonempty ((compFailRuns runArray).map (fun r => (getCompilerStatus r).stdout)) := by
  induction runArray using List.reverseRecOn with
  | nil => exact ⟨rfl, rfl, rfl, rfl⟩
  | append_singleton l a ih =>
    obtain ⟨ih1, ih2, ih3, ih4⟩ := ih
    have hstep : detailsFold (l ++ [a]) = detailsStep (detailsFold l) a := by
      rw [detailsFold, detailsFold, List.foldl_append, List.foldl_cons, List.foldl_nil]
    cases hca : isCompFail a with
    | true =>
      have hcf : compFailRuns (l ++ [a]) = compFailRuns l ++ [a] := by
        simp [compFailRuns, List.filter_append, hca]
      have hc1 : (detailsStep (detailsFold l) a).1 =
          { result := (getCompilerStatus a).result, reason := (getCompilerStatus a).reason,
            stderr := strOr (detailsFold l).1.stderr (getCompilerStatus a).stderr,
            stdout := strOr (detailsFold l).1.stdout (getCompilerStatus a).stdout } := by
        simp [detailsStep, show ((getCompilerStatus a).result != 0) = isCompFail a from rfl, hca]
      rw [hstep, hc1, hcf]
      refine ⟨?_, ?_, ?_, ?_⟩
      · rw [List.getLast?_concat]
      · rw [List.getLast?_concat]
      · simp only [List.map_append, List.map_cons, List.map_nil]
        rw [firstNonempty_append_singleton, ih3]
        rfl
      · simp only [List.map_append, List.map_cons, List.map_nil]
        rw [firstNonempty_append_singleton, ih4]
        rfl
    | false =>
      have hcf : compFailRuns (l ++ [a]) = compFailRuns l := by
        simp [compFailRuns, List.filter_append, hca]
      have hc1 : (detailsStep (detailsFold l) a).1 = (detailsFold l).1 := by
        simp [detailsStep, show ((getCompilerStatus a).result != 0) = isCompFail a from rfl, hca]
      rw [hstep, hc1, hcf]
      exact ⟨ih1, ih2, ih3, ih4⟩

theorem detailsFold_snd_char (runArray : List RunRecord) :
    (detailsFold runArray).2.result
        = (match (rtFailRuns runArray).getLast? with
           | none => .num 0
           | some r => (getRuntimeStatus r).result)
  ∧ (detailsFold runArray).2.reason
        = (match (rtFailRuns runArray).getLast? with
           | none => "Pass"
           | some r => (getRuntimeStatus r).reason)
  ∧ (detailsFold runArray).2.stderr
      = firstNonempty ((rtFailRuns runArray).map (fun r => (getRuntimeStatus r).stderr))
  ∧ (detailsFold runArray).2.output
      = firstNonempty ((rtFailRuns runArray).map (fun r => (getRuntimeStatus r).output)) := by
  induction runArray using List.reverseRecOn with
  | nil => exact ⟨rfl, rfl, rfl, rfl⟩
  | append_singleton l a ih =>
    obtain ⟨ih1, ih2, ih3, ih4⟩ := ih
    have hstep : detailsFold (l ++ [a]) = detailsStep (detailsFold l) a := by
      rw [detailsFold, detailsFold, List.foldl_append, List.foldl_cons, List.foldl_nil]
    cases hra : isRtFail a with
    | true =>
      have hcf : rtFailRuns (l ++ [a]) = rtFailRuns l ++ [a] := by
        simp [rtFailRuns, List.filter_append, hra]
      have hc2 : (detailsStep (detailsFold l) a).2 =
          { result := (getRuntimeStatus a).result, reason := (getRuntimeStatus a).reason,
            stderr := strOr (detailsFold l).2.stderr (getRuntimeStatus a).stderr,
            output := strOr (detailsFold l).2.output (getRuntimeStatus a).output } := by
        simp [detailsStep, show isRtFailRes (getRuntimeStatus a).result = isRtFail a from rfl, hra]
      rw [hstep, hc2, hcf]
      refine ⟨?_, ?_, ?_, ?_⟩
      · rw [List.getLast?_concat]
      · rw [List.getLast?_concat]
      · simp only [List.map_append, List.map_cons, List.map_nil]
        rw [firstNonempty_append_singleton, ih3]
        rfl
      · simp only [List.map_append, List.map_cons, List.map_nil]
        rw [firstNonempty_append_singleton, ih4]
        rfl
    | false =>
      have hcf : rtFailRuns (l ++ [a]) = rtFailRuns l := by
        simp [rtFailRuns, List.filter_append, hra]
      have hc2 : (detailsStep (detailsFold l) a).2 = (detailsFold l).2 := by
        simp [detailsStep, show isRtFailRes (getRuntimeStatus a).result = isRtFail a from rfl, hra]
      rw [hstep, hc2, hcf]
      exact ⟨ih1, ih2, ih3, ih4⟩

set_option maxHeartbeats 1600000 in
/-- C4 counterexample: with two compiler-failing runs, the DetailsPage fold
records the LAST failing run's reason, overwriting the first-encountered
failure reason (the first failing run's reason is "Unknown", yet the final
verdict carries the second run's "error: two"). -/
theorem c4_fold_counterexample :
    [runCompFail, runCompFailTwo].find? isCompFail = some runCompFail
  ∧ (getCompilerStatus runCompFail).reason = "Unknown"
  ∧ (getCompilerStatus runCompFailTwo).reason = "error: two"
  ∧ (detailsFold [runCompFail, runCompFailTwo]).1.reason = "error: two" := by
  exact ⟨by decide, by decide, by decide, by decide⟩

/-- C4 (amended): the classifier folds across all of a test's RunRecords:
the final compiler verdict is failing iff some run's compilation failed and
the final runtime verdict is failing iff some run's runtime check failed;
in the DetailsPage fold the recorded result and reason are those of the
LAST failing run (a previously captured reason IS overwritten by a later
failing run, though never by a later success), while the recorded
stderr/stdout keep the first non-empty text among the failing runs. -/
theorem c4_fold_amended (runArray : List RunRecord) :
    ((detailsFold runArray).1.result ≠ 0 ↔ ∃ run ∈ runArray, isCompFail run)
  ∧ (isRtFailRes (detailsFold runArray).2.result ↔ ∃ run ∈ runArray, isRtFail run)
  ∧ (∀ r, (compFailRuns runArray).getLast? = some r →
      (detailsFold runArray).1.result = (getCompilerStatus r).result
      ∧ (detailsFold runArray).1.reason = (getCompilerStatus r).reason)
  ∧ (detailsFold runArray).1.stderr
      = firstNonempty ((compFailRuns runArray).map (fun r => (getCompilerStatus r).stderr))
  ∧ (detailsFold runArray).1.stdout
      = firstNonempty ((compFailRuns runArray).map (fun r => (getCompilerStatus r).stdout))
  ∧ (∀ r, (rtFailRuns runArray).getLast? = some r →
      (detailsFold runArray).2.result = (getRuntimeStatus r).result
      ∧ (detailsFold runArray).2.reason = (getRuntimeStatus r).reason)
  ∧ (detailsFold runArray).2.stderr
      = firstNonempty ((rtFailRuns runArray).map (fun r => (getRuntimeStatus r).stderr))
  ∧ (detailsFold runArray).2.output
      = firstNonempty ((rtFailRuns runArray).map (fun r => (getRuntimeStatus r).output)) := by
  obtain ⟨hc1, hc2, hc3, hc4⟩ := detailsFold_fst_char runArray
  obtain ⟨hr1, hr2, hr3, hr4⟩ := detailsFold_snd_char runArray
  refine ⟨?_, ?_, ?_, hc3, hc4, ?_, hr3, hr4⟩
  · rw [hc1]
    cases h : (compFailRuns runArray).getLast? with
    | none =>
      rw [List.getLast?_eq_none_iff] at h
      have hno := List.filter_eq_nil_iff.mp h
      simp only [ne_eq, not_true_eq_false, false_iff]
      intro ⟨r, hmem, hfail⟩
      exact hno r hmem (by simp [hfail])
    | some r =>
      have hmemf : r ∈ compFailRuns runArray := List.mem_of_getLast?_eq_some h
      have hfail : isCompFail r := List.of_mem_filter hmemf
      have hne : (getCompilerStatus r).result ≠ 0 := by
        simpa [isCompFail] using hfail
      simp only [ne_eq, hne, not_false_eq_true, true_iff]
      exact ⟨r, List.mem_of_mem_filter hmemf, hfail⟩
  · rw [hr1]
    cases h : (rtFailRuns runArray).getLast? with
    | none =>
      rw [List.getLast?_eq_none_iff] at h
      have hno := List.filter_eq_nil_iff.mp h
      constructor
      · intro hcontra
        exact absurd hcontra (by decide)
      · intro ⟨r, hmem, hfail⟩
        exact absurd (hno r hmem (by simp [hfail])) (by simp)
    | some r =>
      have hmemf : r ∈ rtFailRuns runArray := List.mem_of_getLast?_eq_some h
      have hfail : isRtFail r := List.of_mem_filter hmemf
      constructor
      · intro _
        exact ⟨r, List.mem_of_mem_filter hmemf, hfail⟩
      · intro _
        exact hfail
  · intro r h
    rw [hc1, hc2, h]
    exact ⟨rfl, rfl⟩
  · intro r h
    rw [hr1, hr2, h]
    exact ⟨rfl, rfl⟩

set_option maxHeartbeats 1600000 in
theorem c4_fold_witness :
    ((detailsFold [runCompFail, runCompFailTwo]).1.result ≠ 0
      ↔ ∃ run ∈ [runCompFail, runCompFailTwo], isCompFail run)
  ∧ (detailsFold [runCompFail, runCompFailTwo]).1.result
      = (getCompilerStatus runCompFailTwo).result
  ∧ (detailsFold [runCompFail, runCompFailTwo]).1.reason
      = (getCompilerStatus runCompFailTwo).reason := by
  have h := c4_fold_amended [runCompFail, runCompFailTwo]
  have hlast := h.2.2.1 runCompFailTwo (by decide)
  exact ⟨h.1, hlast.1, hlast.2⟩


theorem charListLt_irrefl : ∀ as, charListLt as as = false
  | [] => rfl
  | a :: as => by
    simp only [charListLt, lt_irrefl, if_false, if_neg (lt_irrefl a)]
    exact charListLt_irrefl as

theorem charListLt_trichotomy : ∀ as bs, charListLt as bs = true ∨ as = bs ∨ charListLt bs as = true
  | [], [] => Or.inr (Or.inl rfl)
  | [], _ :: _ => Or.inl rfl
  | _ :: _, [] => Or.inr (Or.inr rfl)
  | a :: as, b :: bs => by
    rcases lt_trichotomy a b with h | h | h
    · exact Or.inl (by simp [charListLt, h])
    · subst h
      rcases charListLt_trichotomy as bs with h' | h' | h'
      · exact Or.inl (by simp [charListLt, lt_irrefl, h'])
      · exact Or.inr (Or.inl (by rw [h']))
      · exact Or.inr (Or.inr (by simp [charListLt, lt_irrefl, h']))
    · exact Or.inr (Or.inr (by simp [charListLt, h]))

theorem charListLt_asymm : ∀ as bs, charListLt as bs = true → charListLt bs as = false
  | [], [] => by simp [charListLt]
  | [], _ :: _ => by simp [charListLt]
  | _ :: _, [] => by simp [charListLt]
  | a :: as, b :: bs => by
    simp only [charListLt]
    rcases lt_trichotomy a b with h | h | h
    · simp [h, asymm h]
    · subst h
      simp only [lt_irrefl, if_false, if_neg (lt_irrefl a)]
      exact charListLt_asymm as bs
    · simp [h, asymm h]

theorem charListLt_trans :
    ∀ as bs cs, charListLt as bs = true → charListLt bs cs = true → charListLt as cs = true
  | _, bs, [], _, h2 => by simp [charListLt] at h2
  | as, [], _ :: _, h1, _ => by simp [charListLt] at h1
  | [], _ :: _, _ :: _, _, _ => rfl
  | a :: as, b :: bs, c :: cs, h1, h2 => by
    simp only [charListLt] at h1 h2 ⊢
    rcases lt_trichotomy a b with hab | hab | hab
    · rcases lt_trichotomy b c with hbc | hbc | hbc
      · simp [lt_trans hab hbc]
      · subst hbc
        simp [hab]
      · simp [hbc, asymm hbc] at h2
    · subst hab
      rcases lt_trichotomy a c with hac | hac | hac
      · simp [hac]
      · subst hac
        simp only [lt_irrefl, if_false, if_neg (lt_irrefl a)] at h1 h2 ⊢
        exact charListLt_trans as bs cs h1 h2
      · simp [hac, asymm hac] at h2
    · simp [hab, asymm hab] at h1

theorem strLt_trichotomy (a b : String) : strLt a b = true ∨ a = b ∨ strLt b a = true := by
  rcases charListLt_trichotomy a.data b.data with h | h | h
  · exact Or.inl h
  · exact Or.inr (Or.inl (by cases a; cases b; exact congrArg String.mk h))
  · exact Or.inr (Or.inr h)

theorem strLt_irrefl (a : String) : strLt a a = false := charListLt_irrefl a.data

theorem strLt_asymm (a b : String) (h : strLt a b = true) : strLt b a = false :=
  charListLt_asymm a.data b.data h

theorem strLt_trans (a b c : String) (h1 : strLt a b = true) (h2 : strLt b c = true) :
    strLt a c = true :=
  charListLt_trans a.data b.data c.data h1 h2

theorem sortLe_iff_amendedLe (a b : String) : sortLe a b ↔ amendedLe a b := by
  simp only [sortLe, jsCompare, amendedLe]
  rcases strLt_trichotomy (splitLastDot (lowerStr a)).1 (splitLastDot (lowerStr b)).1
    with h | h | h
  · rw [if_pos h]
    constructor
    · intro _
      exact Or.inl h
    · intro _
      norm_num
  · rw [if_neg (by rw [h, strLt_irrefl]; exact Bool.false_ne_true),
      if_neg (by rw [h, strLt_irrefl]; exact Bool.false_ne_true)]
    constructor
    · intro hc
      exact Or.inr ⟨h, by omega⟩
    · intro hd
      rcases hd with hd | ⟨_, hd⟩
      · rw [h, strLt_irrefl] at hd
        exact absurd hd Bool.false_ne_true
      · omega
  · rw [if_neg (by rw [strLt_asymm _ _ h]; exact Bool.false_ne_true), if_pos h]
    constructor
    · intro hc
      norm_num at hc
    · intro hd
      rcases hd with hd | ⟨hd, _⟩
      · rw [strLt_asymm _ _ h] at hd
        exact absurd hd Bool.false_ne_true
      · rw [hd, strLt_irrefl] at h
        exact absurd h Bool.false_ne_true

instance : IsTotal String sortLe :=
  ⟨fun a b => by
    rw [sortLe_iff_amendedLe, sortLe_iff_amendedLe]
    unfold amendedLe
    rcases strLt_trichotomy (splitLastDot (lowerStr a)).1 (splitLastDot (lowerStr b)).1
      with h | h | h
    · exact Or.inl (Or.inl h)
    · rcases le_total (langOrderOf (splitLastDot (lowerStr a)).2)
        (langOrderOf (splitLastDot (lowerStr b)).2) with hp | hp
      · exact Or.inl (Or.inr ⟨h, hp⟩)
      · exact Or.inr (Or.inr ⟨h.symm, hp⟩)
    · exact Or.inr (Or.inl h)⟩

instance : IsTrans String sortLe :=
  ⟨fun a b c hab hbc => by
    rw [sortLe_iff_amendedLe] at hab hbc ⊢
    unfold amendedLe at hab hbc ⊢
    rcases hab with h1 | ⟨h1, p1⟩ <;> rcases hbc with h2 | ⟨h2, p2⟩
    · exact Or.inl (strLt_trans _ _ _ h1 h2)
    · exact Or.inl (h2 ▸ h1)
    · exact Or.inl (h1 ▸ h2)
    · exact Or.inr ⟨h1.trans h2, le_trans p1 p2⟩⟩

/-- C8 counterexample: the comparator lowercases names before comparing, so
the processing order is not the sort by case-sensitive lexicographic base
name — "B.c" precedes "a.c" lexicographically, yet the sort puts "a.c"
first. -/
theorem c8_sort_counterexample :
    sortTestNames ["B.c", "a.c"] = ["a.c", "B.c"]
  ∧ claimedLe "B.c" "a.c"
  ∧ ¬ (sortTestNames ["B.c", "a.c"]).Sorted claimedLe := by
  refine ⟨by decide, by decide, ?_⟩
  intro hs
  rw [show sortTestNames ["B.c", "a.c"] = ["a.c", "B.c"] from by decide] at hs
  have hrel := List.rel_of_sorted_cons hs "B.c" (List.mem_singleton.mpr rfl)
  revert hrel
  decide

/-- C8 (amended): sortTestNames is a permutation of its input, sorted by
(lowercased base name ascending, then language priority c < cpp < f90,
unknown extensions last), names being split at the last dot; as a pure
function of the input list the ordering is deterministic. -/
theorem c8_sort_amended (names : List String) :
    (sortTestNames names).Perm names ∧ (sortTestNames names).Sorted amendedLe := by
  constructor
  · exact List.perm_insertionSort sortLe names
  · exact (List.sorted_insertionSort sortLe names).imp
      (fun hab => (sortLe_iff_amendedLe _ _).mp hab)

theorem get_passBump (p : PassCounts) (l l' : Lang) :
    ((p.bump l).get l') = p.get l' + (if l = l' then 1 else 0) := by
  cases l <;> cases l' <;> simp [PassCounts.bump, PassCounts.get]

theorem comparisonStep_get (g : Phase) (acc : PassCounts) (e : String × RunsVal) (l : Lang) :
    (comparisonStep g acc e).get l
      = acc.get l + (if comparisonCountedEntry g l e then 1 else 0) := by
  obtain ⟨n, v⟩ := e
  cases v with
  | other => simp [comparisonStep, comparisonCountedEntry]
  | arr runs =>
    cases hruns : runs.isEmpty with
    | true => simp [comparisonStep, comparisonCountedEntry, hruns]
    | false =>
      cases hlang : langOf n with
      | none => simp [comparisonStep, comparisonCountedEntry, hruns, hlang]
      | some l' =>
        cases g with
        | compiler =>
          cases hcp : compilerPassAll runs with
          | true =>
            by_cases hl : l' = l
            · subst hl
              simp [comparisonStep, comparisonCountedEntry, hruns, hlang, hcp, get_passBump]
            · simp [comparisonStep, comparisonCountedEntry, hruns, hlang, hcp, get_passBump, hl]
          | false =>
            simp [comparisonStep, comparisonCountedEntry, hruns, hlang, hcp]
        | runtime =>
          cases hcp : compilerPassAll runs && runtimePassAll runs with
          | true =>
            by_cases hl : l' = l
            · subst hl
              simp [comparisonStep, comparisonCountedEntry, hruns, hlang, hcp, get_passBump]
            · simp [comparisonStep, comparisonCountedEntry, hruns, hlang, hcp, get_passBump, hl]
          | false =>
            simp [comparisonStep, comparisonCountedEntry, hruns, hlang, hcp]

theorem comparisonCounts_get (g : Phase) (doc : RunsDoc) (l : Lang) :
    (comparisonCounts g doc).get l = doc.countP (comparisonCountedEntry g l) := by
  have hgen : ∀ acc : PassCounts,
      (doc.foldl (comparisonStep g) acc).get l
        = acc.get l + doc.countP (comparisonCountedEntry g l) := by
    induction doc with
    | nil => intro acc; simp
    | cons e es ih =>
      intro acc
      rw [List.foldl_cons, List.countP_cons, ih, comparisonStep_get]
      omega
  have hz : (({} : PassCounts).get l) = 0 := by cases l <;> rfl
  rw [comparisonCounts, hgen {}, hz]
  omega

theorem comparisonCountedEntry_lang (g : Phase) (l : Lang) (e : String × RunsVal)
    (h : comparisonCountedEntry g l e = true) : langOf e.1 = some l := by
  obtain ⟨n, v⟩ := e
  cases v with
  | other => simp [comparisonCountedEntry] at h
  | arr runs =>
    by_cases hruns : runs.isEmpty
    · simp [comparisonCountedEntry, hruns] at h
    · by_cases hlang : langOf n = some l
      · exact hlang
      · simp [comparisonCountedEntry, hruns, hlang] at h

theorem comparisonCounts_restrict (g : Phase) (l : Lang) (doc : RunsDoc) :
    doc.countP (comparisonCountedEntry g l)
      = (langEntries l doc).countP (comparisonCountedEntry g l) := by
  rw [langEntries, List.countP_filter]
  apply List.countP_congr
  intro e _
  constructor
  · intro h
    simp only [Bool.and_eq_true, h, true_and, decide_eq_true_eq]
    exact comparisonCountedEntry_lang g l e h
  · intro h
    exact (Bool.and_eq_true _ _ |>.mp h).1

/-- C9: the comparison chart pairs per-document pass counts positionally,
each computed independently per document, and a language's count depends
only on that language's entries: documents agreeing on their entries of a
language produce the same pass-count pair for that language. -/
theorem c9_comparison_independence (graphMode : Phase) (lang : Lang)
    (doc1 doc2 doc1' doc2' : RunsDoc)
    (h1 : langEntries lang doc1 = langEntries lang doc1')
    (h2 : langEntries lang doc2 = langEntries lang doc2') :
    comparisonPair graphMode doc1 doc2 lang = comparisonPair graphMode doc1' doc2' lang := by
  unfold comparisonPair
  rw [comparisonCounts_get, comparisonCounts_get, comparisonCounts_get, comparisonCounts_get,
    comparisonCounts_restrict graphMode lang doc1, comparisonCounts_restrict graphMode lang doc2,
    comparisonCounts_restrict graphMode lang doc1', comparisonCounts_restrict graphMode lang doc2',
    h1, h2]

theorem c9_comparison_independence_witness :
    langEntries .C [("a.c", .arr [runCompPassOnly])]
      = langEntries .C [("a.c", .arr [runCompPassOnly]), ("b.f90", .arr [runCompFail])]
  ∧ langEntries .C [("x.c", .arr [runCompFail])]
      = langEntries .C [("x.c", .arr [runCompFail]), ("y.cpp", .arr [runCompPassOnly])]
  ∧ comparisonPair .compiler [("a.c", .arr [runCompPassOnly])] [("x.c", .arr [runCompFail])] .C
      = comparisonPair .compiler [("a.c", .arr [runCompPassOnly]), ("b.f90", .arr [runCompFail])]
          [("x.c", .arr [runCompFail]), ("y.cpp", .arr [runCompPassOnly])] .C := by
  refine ⟨by decide, by decide, ?_⟩
  exact c9_comparison_independence .compiler .C _ _ _ _ (by decide) (by decide)
